import Mathlib

/-!
Shallow embedding of the `box` tool (repository AlphaLynx0/box).

Strings are modelled as `List Char` (Go strings iterated rune by rune);
`utf8.RuneCountInString s` becomes `List.length`.  Colors from the
`fatih/color` library are modelled as their attribute lists; `Color.Sprint`
wraps its argument in the ANSI sequences `ESC [ a1;a2;... m` and `ESC [ 0 m`,
exactly as the library's `wrap`/`format`/`unformat` do.

The repository carries three revisions of the program: `box.go` (built by the
Makefile) and two unnamed revisions; the newest one adds a stateful color
engine (`usedColors`/`colorIndex` fields).  The rendering core (`stripAnsi`,
`maxLineWidth`, `createBox`, the attribute resolution in `createNestedBoxes`)
is identical in all revisions and is embedded once below; the two variants of
`getNextColor` are embedded separately (the stateless one from `box.go`, the
stateful one from the newest revision, in namespace `Part001`).
-/

/-- Go strings, iterated as runes. -/
abbrev Str := List Char

/-- The escape code point 0x1B. -/
def escChar : Char := Char.ofNat 27

/-- The test `(r >= 'a' && r <= 'z') || (r >= 'A' && r <= 'Z')` from `stripAnsi`. -/
def isAsciiLetter (r : Char) : Bool :=
  (('a' ≤ r) && (r ≤ 'z')) || (('A' ≤ r) && (r ≤ 'Z'))

/-- The loop of `stripAnsi` (box.go lines 156-174): state `inEscape` is the
second argument; an `0x1b` rune enters escape mode, every rune up to and
including the next ASCII letter is dropped, all other runes are kept. -/
def stripAnsiGo : Str → Bool → Str
  | [], _ => []
  | r :: rest, inEscape =>
    if r = escChar then stripAnsiGo rest true
    else if inEscape then
      if isAsciiLetter r then stripAnsiGo rest false else stripAnsiGo rest true
    else r :: stripAnsiGo rest false

/-- `stripAnsi` (box.go lines 156-174): run the loop with `inEscape = false`. -/
def stripAnsi (s : Str) : Str := stripAnsiGo s false

/-- The final `inEscape` state after `stripAnsi`'s loop runs over `s`. -/
def ansiEnd : Str → Bool → Bool
  | [], e => e
  | r :: rest, e =>
    if r = escChar then ansiEnd rest true
    else if e then
      if isAsciiLetter r then ansiEnd rest false else ansiEnd rest true
    else ansiEnd rest false

/-- A string whose ANSI escapes are all terminated: `stripAnsi`'s state
machine ends outside an escape sequence. -/
def AnsiClosed (s : Str) : Prop := ansiEnd s false = false

instance (s : Str) : Decidable (AnsiClosed s) := by unfold AnsiClosed; infer_instance

/-- Decimal digits of a natural number (models `strconv.Itoa` for the
attribute codes rendered inside ANSI sequences; the fuel `n+1` always
suffices). -/
def natCharsGo (fuel : Nat) (n : Nat) (acc : Str) : Str :=
  match fuel with
  | 0 => acc
  | f + 1 =>
    let d := Nat.digitChar (n % 10)
    if n < 10 then d :: acc else natCharsGo f (n / 10) (d :: acc)

/-- Decimal rendering of a natural number. -/
def natChars (n : Nat) : Str := natCharsGo (n + 1) n []

/-- A color of the `fatih/color` library: its list of attribute codes. -/
abbrev Color := List Nat

/-- `strings.Join(... , ";")` over the rendered attribute codes: the body of
the opening escape sequence produced by `fatih/color`. -/
def seqOf : Color → Str
  | [] => []
  | [a] => natChars a
  | a :: rest => natChars a ++ ';' :: seqOf rest

/-- `Color.Sprint` of `fatih/color`: `ESC [ <attrs> m <s> ESC [ 0 m`. -/
def sprint (c : Color) (s : Str) : Str :=
  escChar :: '[' :: (seqOf c ++ 'm' :: (s ++ escChar :: '[' :: '0' :: 'm' :: []))

/-- A glyph set (`Theme`, box.go line 37): the six border glyph strings. -/
structure Theme where
  we : Str
  ns : Str
  nw : Str
  ne : Str
  sw : Str
  se : Str
deriving DecidableEq

/-- `themeUnicode` (box.go lines 26-28). -/
def themeUnicode : Theme := ⟨['━'], ['┃'], ['┏'], ['┓'], ['┗'], ['┛']⟩

/-- `themeAscii` (box.go lines 29-31). -/
def themeAscii : Theme := ⟨['-'], ['|'], ['+'], ['+'], ['+'], ['+']⟩

/-- `themePlain` (box.go lines 32-34). -/
def themePlain : Theme := ⟨[' '], [' '], [' '], [' '], [' '], [' ']⟩

/-- `getTheme` (box.go lines 95-106). -/
def getTheme (name : Str) : Theme :=
  if name = "unicode".toList then themeUnicode
  else if name = "ascii".toList then themeAscii
  else if name = "plain".toList then themePlain
  else themeUnicode

/-- Digit-only `strconv.Atoi` (the only form `parseColor` can receive from the
spec's color names; signed forms are never produced there). -/
def strToNat? (s : Str) : Option Nat :=
  if s ≠ [] ∧ s.all (fun c => c.isDigit) then
    some (s.foldl (fun a c => a * 10 + (c.toNat - 48)) 0)
  else none

/-- `parseColor` (box.go lines 109-150); attribute codes are the
`fatih/color` constants (FgBlack = 30 … FgWhite = 37, FgHiBlack = 90 …
FgHiWhite = 97, Reset = 0). -/
def parseColor (name : Str) : Color :=
  let lower := name.map Char.toLower
  if lower = "black".toList then [30]
  else if lower = "red".toList then [31]
  else if lower = "green".toList then [32]
  else if lower = "yellow".toList then [33]
  else if lower = "blue".toList then [34]
  else if lower = "magenta".toList then [35]
  else if lower = "cyan".toList then [36]
  else if lower = "white".toList then [37]
  else if lower = "gray".toList ∨ lower = "bright_black".toList then [90]
  else if lower = "bright_red".toList then [91]
  else if lower = "bright_green".toList then [92]
  else if lower = "bright_yellow".toList then [93]
  else if lower = "bright_blue".toList then [94]
  else if lower = "bright_magenta".toList then [95]
  else if lower = "bright_cyan".toList then [96]
  else if lower = "bright_white".toList then [97]
  else
    match strToNat? name with
    | some num => [90 + num]
    | none => [0]

/-- `repeatChar` (box.go lines 152-154): `strings.Repeat`. -/
def repeatChar (char : Str) (n : Nat) : Str := (List.replicate n char).flatten

/-- `strings.Repeat(" ", n)`. -/
def spaces (n : Nat) : Str := List.replicate n ' '

/-- `maxLineWidth` (box.go lines 176-185). -/
def maxLineWidth (lines : List Str) : Nat :=
  lines.foldl (fun m line => max m (stripAnsi line).length) 0

/-- The inner width computed at the top of `createBox` (box.go lines
196-202): max stripped line width plus twice the horizontal padding, raised
to the title's stripped width when a title is present and wider. -/
def boxMaxWidth (lines : List Str) (boxTitle : Str) (hpadding : Nat) : Nat :=
  let mw := maxLineWidth lines + 2 * hpadding
  if boxTitle ≠ [] then
    let titleLen := (stripAnsi boxTitle).length
    if mw < titleLen then titleLen else mw
  else mw

/-- The `border` closure of `createBox` (box.go lines 203-208), also covering
the inline `if boxColor != nil { boxColor.Sprint(...) }` branches. -/
def paint (boxColor : Option Color) (s : Str) : Str :=
  match boxColor with
  | some c => sprint c s
  | none => s

/-- `createBox` (box.go lines 187-262). -/
def createBox (lines : List Str) (boxColor contentColor : Option Color)
    (boxTitle : Str) (titleColor : Option Color) (theme : Theme)
    (vpadding hpadding : Nat) : List Str :=
  let maxWidth := boxMaxWidth lines boxTitle hpadding
  let top :=
    paint boxColor theme.nw ++
      (if boxTitle ≠ [] then
        paint titleColor boxTitle ++
          paint boxColor (repeatChar theme.we (maxWidth - (stripAnsi boxTitle).length))
      else
        paint boxColor (repeatChar theme.we maxWidth)) ++
      paint boxColor theme.ne
  let padRow := paint boxColor theme.ns ++ spaces maxWidth ++ paint boxColor theme.ns
  let contentRow := fun (line : Str) =>
    let stripped := stripAnsi line
    let content := paint contentColor line
    let totalPadding := maxWidth - stripped.length
    paint boxColor theme.ns ++ spaces hpadding ++ content ++ spaces hpadding ++
      spaces (totalPadding - 2 * hpadding) ++ paint boxColor theme.ns
  [top] ++ List.replicate vpadding padRow ++ lines.map contentRow ++
    List.replicate vpadding padRow ++ [paint boxColor theme.sw ++
      paint boxColor (repeatChar theme.we maxWidth) ++ paint boxColor theme.se]

/-- Border/title color resolution inside `createNestedBoxes` (box.go lines
279-292): element `i` when in range, else the first element, else unset. -/
def resolveColor (colors : List Str) (i : Nat) : Option Color :=
  match colors with
  | [] => none
  | c0 :: _ =>
    if i < colors.length then some (parseColor (colors.getD i c0))
    else some (parseColor c0)

/-- Title resolution inside `createNestedBoxes` (box.go lines 293-299):
element `i` when in range, else the empty string. -/
def resolveTitle (titles : List Str) (i : Nat) : Str :=
  match titles with
  | [] => []
  | _ :: _ => if i < titles.length then titles.getD i [] else []

/-- The color theme of `box.go` (lines 40-43): name and random start color. -/
structure ColorThemeGo where
  name : Str
  startColor : Nat
deriving DecidableEq

/-- `prideColors` literal of box.go line 56. -/
def prideColorsGo : List Nat := [196, 208, 226, 46, 21, 129]

/-- `transColors` literal of box.go line 60. -/
def transColorsGo : List Nat := [51, 213, 15, 213, 51]

/-- `biColors` literal of box.go line 64. -/
def biColorsGo : List Nat := [213, 129, 21]

/-- `panColors` literal of box.go line 68. -/
def panColorsGo : List Nat := [213, 226, 21]

/-- `nbColors` literal of box.go line 72. -/
def nbColorsGo : List Nat := [226, 15, 129, 0]

/-- `getNextColor` of `box.go` (lines 46-77), the stateless variant; the
`rand.Intn(216)` draw of the `random` case is supplied as the oracle `rnd`. -/
def getNextColorGo (theme : ColorThemeGo) (index : Nat) (rnd : Nat) : Nat :=
  if theme.name = "random".toList then rnd % 216
  else if theme.name = "gradient".toList then (theme.startColor + index) % 216
  else if theme.name = "rainbow".toList then index % 216
  else if theme.name = "pride".toList then
    prideColorsGo.getD (index % prideColorsGo.length) 0
  else if theme.name = "trans".toList then
    transColorsGo.getD (index % transColorsGo.length) 0
  else if theme.name = "bi".toList then
    biColorsGo.getD (index % biColorsGo.length) 0
  else if theme.name = "pan".toList then
    panColorsGo.getD (index % panColorsGo.length) 0
  else if theme.name = "nb".toList then
    nbColorsGo.getD (index % nbColorsGo.length) 0
  else theme.startColor

/-- `getColorFromTheme` of `box.go` (lines 89-93):
`color.New(38, 5, colorCode)`. -/
def getColorFromThemeGo (theme : ColorThemeGo) (index : Nat) (rnd : Nat) : Color :=
  [38, 5, getNextColorGo theme index rnd]

/-- One iteration of the loop in `createNestedBoxes` (box.go lines 273-306):
resolve the border color (from the color theme when active, else from the
list), the title color, the title, give the content color only to the
iteration `i = depth-1`, and wrap the current lines in a new box. -/
def nestStep (boxColors titleColors boxTitles : List Str) (theme : Theme)
    (vpadding hpadding : Nat) (contentColor : Option Color)
    (colorTheme : Option ColorThemeGo) (rnd : Nat → Nat) (depth : Nat)
    (ls : List Str) (i : Nat) : List Str :=
  let boxColor :=
    match colorTheme with
    | some ct => some (getColorFromThemeGo ct i (rnd i))
    | none => resolveColor boxColors i
  let titleColor := resolveColor titleColors i
  let boxTitle := resolveTitle boxTitles i
  let thisContentColor := if i = depth - 1 then contentColor else none
  createBox ls boxColor thisContentColor boxTitle titleColor theme vpadding hpadding

/-- `createNestedBoxes` (box.go lines 264-308): `for i := 0; i < depth; i++`
re-wrapping `lines` each iteration, so iteration 0 wraps the raw content. -/
def createNestedBoxes (lines : List Str) (depth : Nat)
    (boxColors titleColors boxTitles : List Str) (theme : Theme)
    (vpadding hpadding : Nat) (contentColor : Option Color)
    (colorTheme : Option ColorThemeGo) (rnd : Nat → Nat) : List Str :=
  (List.range depth).foldl
    (nestStep boxColors titleColors boxTitles theme vpadding hpadding
      contentColor colorTheme rnd depth) lines

namespace Part001

/-!
The stateful color engine of the repository's newest revision (the unnamed
source file with `resolveTextInput`): `ColorTheme` carries the set of already
returned colors and a running cursor, and `getNextColor` avoids repetition.
The `rand.Intn(216)` draws are modelled as a stream `src` indexed by the
number of draws made so far; the unbounded redraw loop of the `random` case
is given explicit `fuel` and returns `none` when the fuel runs out.
-/

/-- `ColorTheme` of the newest revision (lines 103-108). -/
structure ColorTheme where
  name : Str
  startColor : Nat
  usedColors : List Nat
  colorIndex : Nat
deriving DecidableEq

/-- `newColorTheme` (lines 186-194): fresh state with an empty used set. -/
def newColorTheme (name : Str) (rnd : Nat) : ColorTheme :=
  ⟨name, rnd % 216, [], 0⟩

/-- The redraw loop of the `random` case (lines 120-126): draw from the
stream until the draw is not in the used set. -/
def drawLoop (src : Nat → Nat) (pos : Nat) (used : List Nat) :
    Nat → Option (Nat × Nat)
  | 0 => none
  | fuel + 1 =>
    let c := src pos % 216
    if c ∈ used then drawLoop src (pos + 1) used fuel else some (c, pos + 1)

/-- `prideColors` candidate list (line 139). -/
def prideColors : List Nat := [196, 208, 226, 46, 21, 129]

/-- `transColors` candidate list (line 142): duplicates removed, exactly the
three distinct trans flag colors. -/
def transColors : List Nat := [51, 213, 15]

/-- `biColors` candidate list (line 145). -/
def biColors : List Nat := [213, 129, 21]

/-- `panColors` candidate list (line 148). -/
def panColors : List Nat := [213, 226, 21]

/-- `nbColors` candidate list (line 151). -/
def nbColors : List Nat := [226, 15, 129, 0]

/-- The candidate palette chosen by the flag branches of `getNextColor`
(lines 137-151); `none` for names without a palette. -/
def flagCandidates (name : Str) : Option (List Nat) :=
  if name = "pride".toList then some prideColors
  else if name = "trans".toList then some transColors
  else if name = "bi".toList then some biColors
  else if name = "pan".toList then some panColors
  else if name = "nb".toList then some nbColors
  else none

/-- The search loop `for i := 0; i < len(candidateColors); i++` (lines
164-172): try positions `(colorIndex + i) % len` and return the first color
not yet used, together with the new cursor and used set. -/
def flagLoop (cand used : List Nat) (colorIndex : Nat) (i : Nat) :
    Nat → Option (Nat × Nat × List Nat)
  | 0 => none
  | k + 1 =>
    let idx := (colorIndex + i) % cand.length
    let color := cand.getD idx 0
    if color ∈ used then flagLoop cand used colorIndex (i + 1) k
    else some (color, (idx + 1) % cand.length, color :: used)

/-- The flag-palette block of `getNextColor` (lines 156-180): reset the used
set once the palette is exhausted, search for the next unused color, and on
the defensive fallback reset and return the palette's first color. -/
def flagStep (cand : List Nat) (theme : ColorTheme) : Nat × ColorTheme :=
  let used := if cand.length ≤ theme.usedColors.length then [] else theme.usedColors
  match flagLoop cand used theme.colorIndex 0 cand.length with
  | some (color, newIdx, newUsed) =>
    (color, { theme with usedColors := newUsed, colorIndex := newIdx })
  | none =>
    (cand.getD 0 0, { theme with usedColors := [cand.getD 0 0], colorIndex := 1 })

/-- `getNextColor` of the newest revision (lines 111-183): returns the color,
the new stream position and the new theme state; `none` only when the
`random` redraw loop exhausts its fuel. -/
def getNextColor (src : Nat → Nat) (fuel : Nat) (pos : Nat)
    (theme : ColorTheme) : Option (Nat × Nat × ColorTheme) :=
  if theme.name = "random".toList then
    let used := if 216 ≤ theme.usedColors.length then [] else theme.usedColors
    match drawLoop src pos used fuel with
    | none => none
    | some (c, pos2) => some (c, pos2, { theme with usedColors := c :: used })
  else if theme.name = "gradient".toList then
    some ((theme.startColor + theme.colorIndex) % 216, pos,
      { theme with colorIndex := theme.colorIndex + 1 })
  else if theme.name = "rainbow".toList then
    some (theme.colorIndex % 216, pos,
      { theme with colorIndex := theme.colorIndex + 1 })
  else
    match flagCandidates theme.name with
    | some cand =>
      let r := flagStep cand theme
      some (r.1, pos, r.2)
    | none => some (theme.startColor, pos, theme)

/-- `n` consecutive `getNextColor` calls threading the state (as the nesting
sequencer performs, one call per layer): the list of returned colors plus the
final stream position and state. -/
def runNextColors (src : Nat → Nat) (fuel : Nat) :
    Nat → Nat → ColorTheme → Option (List Nat × Nat × ColorTheme)
  | 0, pos, theme => some ([], pos, theme)
  | n + 1, pos, theme =>
    match getNextColor src fuel pos theme with
    | none => none
    | some (c, pos2, theme2) =>
      match runNextColors src fuel n pos2 theme2 with
      | none => none
      | some (cs, pos3, theme3) => some (c :: cs, pos3, theme3)

end Part001

/-- Modelled from the spec (claim C3's refinement target): the fallback rule
"the list element at position `i` when `i` is within the list's length, else
the list's first element when the list is non-empty, else unset". -/
def specResolve (l : List Str) (i : Nat) : Option Str :=
  if i < l.length then some (l.getD i []) else l.head?

/-- Trim the spaces from both ends of a line (the round-trip recovery step of
the spec's plain-theme property). -/
def trimSpaces (s : Str) : Str :=
  ((s.dropWhile (fun c => c = ' ')).reverse.dropWhile (fun c => c = ' ')).reverse

/-- Recovery procedure of the round-trip property: drop the top and bottom
border rows, then trim the border and fill spaces from each content row. -/
def recoverPlain (out : List Str) : List Str :=
  ((out.drop 1).dropLast).map trimSpaces

/-- A border glyph as the program's themes provide it: a single rune that is
not the escape code point. -/
def GoodGlyph (g : Str) : Prop := escChar ∉ g ∧ g.length = 1

/-- All six glyphs of a glyph set are single non-escape runes. -/
def GoodTheme (t : Theme) : Prop :=
  GoodGlyph t.we ∧ GoodGlyph t.ns ∧ GoodGlyph t.nw ∧ GoodGlyph t.ne ∧
    GoodGlyph t.sw ∧ GoodGlyph t.se

section AnsiLemmas

theorem stripAnsiGo_append (a b : Str) (e : Bool) :
    stripAnsiGo (a ++ b) e = stripAnsiGo a e ++ stripAnsiGo b (ansiEnd a e) := by
  induction a generalizing e with
  | nil => simp [stripAnsiGo, ansiEnd]
  | cons r rest ih =>
    simp only [List.cons_append, stripAnsiGo, ansiEnd]
    by_cases hr : r = escChar
    · simp [hr, ih]
    · by_cases he : e
      · by_cases hl : isAsciiLetter r <;> simp [hr, he, hl, ih]
      · simp [hr, he, ih]

theorem ansiEnd_append (a b : Str) (e : Bool) :
    ansiEnd (a ++ b) e = ansiEnd b (ansiEnd a e) := by
  induction a generalizing e with
  | nil => simp [ansiEnd]
  | cons r rest ih =>
    simp only [List.cons_append, ansiEnd]
    by_cases hr : r = escChar
    · simp [hr, ih]
    · by_cases he : e
      · by_cases hl : isAsciiLetter r <;> simp [hr, he, hl, ih]
      · simp [hr, he, ih]

theorem stripAnsiGo_of_not_mem (s : Str) (h : escChar ∉ s) :
    stripAnsiGo s false = s := by
  induction s with
  | nil => rfl
  | cons r rest ih =>
    simp only [List.mem_cons, not_or] at h
    simp [stripAnsiGo, Ne.symm h.1, fun hr => h.1 hr, ih h.2]

theorem ansiEnd_of_not_mem (s : Str) (h : escChar ∉ s) :
    ansiEnd s false = false := by
  induction s with
  | nil => rfl
  | cons r rest ih =>
    simp only [List.mem_cons, not_or] at h
    have hne : ¬(r = escChar) := fun hr => h.1 hr.symm
    simp [ansiEnd, hne, ih h.2]

theorem stripAnsiGo_true_of_mid (mid rest : Str)
    (h : ∀ c ∈ mid, isAsciiLetter c = false ∧ c ≠ escChar) :
    stripAnsiGo (mid ++ rest) true = stripAnsiGo rest true := by
  induction mid with
  | nil => rfl
  | cons r m ih =>
    have hr := h r (by simp)
    simp only [List.cons_append, stripAnsiGo, hr.2, hr.1, if_false, if_true,
      Bool.false_eq_true]
    exact ih fun c hc => h c (by simp [hc])

theorem ansiEnd_true_of_mid (mid rest : Str)
    (h : ∀ c ∈ mid, isAsciiLetter c = false ∧ c ≠ escChar) :
    ansiEnd (mid ++ rest) true = ansiEnd rest true := by
  induction mid with
  | nil => rfl
  | cons r m ih =>
    have hr := h r (by simp)
    simp only [List.cons_append, ansiEnd, hr.2, hr.1, if_false, if_true,
      Bool.false_eq_true]
    exact ih fun c hc => h c (by simp [hc])

theorem stripAnsiGo_escape_segment (mid rest : Str) (e : Bool)
    (h : ∀ c ∈ mid, isAsciiLetter c = false ∧ c ≠ escChar) :
    stripAnsiGo (escChar :: mid ++ 'm' :: rest) e = stripAnsiGo rest false := by
  have h1 : stripAnsiGo (escChar :: (mid ++ 'm' :: rest)) e =
      stripAnsiGo (mid ++ 'm' :: rest) true := by
    simp [stripAnsiGo]
  rw [List.cons_append, h1, stripAnsiGo_true_of_mid mid ('m' :: rest) h]
  have h2 : ¬('m' = escChar) := by decide
  have h3 : isAsciiLetter 'm' = true := by decide
  simp [stripAnsiGo, h2, h3]

end AnsiLemmas

section AnsiLemmas2

theorem ansiEnd_escape_segment (mid rest : Str) (e : Bool)
    (h : ∀ c ∈ mid, isAsciiLetter c = false ∧ c ≠ escChar) :
    ansiEnd (escChar :: mid ++ 'm' :: rest) e = ansiEnd rest false := by
  have h1 : ansiEnd (escChar :: (mid ++ 'm' :: rest)) e =
      ansiEnd (mid ++ 'm' :: rest) true := by
    simp [ansiEnd]
  rw [List.cons_append, h1, ansiEnd_true_of_mid mid ('m' :: rest) h]
  have h2 : ¬('m' = escChar) := by decide
  have h3 : isAsciiLetter 'm' = true := by decide
  simp [ansiEnd, h2, h3]

theorem digitChar_plain (m : Nat) (hm : m < 10) :
    isAsciiLetter (Nat.digitChar m) = false ∧ Nat.digitChar m ≠ escChar := by
  interval_cases m <;> decide

theorem natCharsGo_plain (fuel n : Nat) (acc : Str)
    (hacc : ∀ c ∈ acc, isAsciiLetter c = false ∧ c ≠ escChar) :
    ∀ c ∈ natCharsGo fuel n acc, isAsciiLetter c = false ∧ c ≠ escChar := by
  induction fuel generalizing n acc with
  | zero => exact hacc
  | succ f ih =>
    intro c hc
    have hd := digitChar_plain (n % 10) (Nat.mod_lt _ (by omega))
    simp only [natCharsGo] at hc
    by_cases hn : n < 10
    · rw [if_pos hn] at hc
      rcases List.mem_cons.mp hc with h | h
      · exact h ▸ hd
      · exact hacc c h
    · rw [if_neg hn] at hc
      refine ih (n / 10) _ ?_ c hc
      intro c' hc'
      rcases List.mem_cons.mp hc' with h | h
      · exact h ▸ hd
      · exact hacc c' h

theorem natChars_plain (n : Nat) :
    ∀ c ∈ natChars n, isAsciiLetter c = false ∧ c ≠ escChar :=
  natCharsGo_plain (n + 1) n [] (by simp)

theorem seqOf_plain (c : Color) :
    ∀ ch ∈ seqOf c, isAsciiLetter ch = false ∧ ch ≠ escChar := by
  induction c with
  | nil => simp [seqOf]
  | cons a rest ih =>
    intro ch hch
    match rest, hch with
    | [], hch => exact natChars_plain a ch hch
    | b :: rs, hch =>
      simp only [seqOf] at hch
      rcases List.mem_append.mp hch with h | h
      · exact natChars_plain a ch h
      · rcases List.mem_cons.mp h with h | h
        · subst h; constructor <;> decide
        · exact ih ch h

theorem sprint_mid_plain (c : Color) :
    ∀ ch ∈ '[' :: seqOf c, isAsciiLetter ch = false ∧ ch ≠ escChar := by
  intro ch hch
  rcases List.mem_cons.mp hch with h | h
  · subst h; constructor <;> decide
  · exact seqOf_plain c ch h

theorem stripAnsiGo_sprint (c : Color) (s : Str) (e : Bool) :
    stripAnsiGo (sprint c s) e = stripAnsi s := by
  show stripAnsiGo (escChar :: ('[' :: seqOf c) ++ 'm' ::
    (s ++ escChar :: '[' :: '0' :: 'm' :: [])) e = stripAnsi s
  rw [stripAnsiGo_escape_segment _ _ _ (sprint_mid_plain c)]
  have hsuf : stripAnsiGo (escChar :: ('[' :: '0' :: []) ++ 'm' :: ([] : Str))
      (ansiEnd s false) = stripAnsiGo [] false :=
    stripAnsiGo_escape_segment _ _ _ (by
      intro ch hch
      rcases List.mem_cons.mp hch with h | h
      · subst h; constructor <;> decide
      · rcases List.mem_cons.mp h with h2 | h2
        · subst h2; constructor <;> decide
        · simp at h2)
  show stripAnsiGo (s ++ escChar :: '[' :: '0' :: 'm' :: []) false = stripAnsi s
  rw [stripAnsiGo_append]
  simpa [stripAnsi] using hsuf

theorem ansiEnd_sprint (c : Color) (s : Str) (e : Bool) :
    ansiEnd (sprint c s) e = false := by
  show ansiEnd (escChar :: ('[' :: seqOf c) ++ 'm' ::
    (s ++ escChar :: '[' :: '0' :: 'm' :: [])) e = false
  rw [ansiEnd_escape_segment _ _ _ (sprint_mid_plain c)]
  have hsuf : ansiEnd (escChar :: ('[' :: '0' :: []) ++ 'm' :: ([] : Str))
      (ansiEnd s false) = ansiEnd [] false :=
    ansiEnd_escape_segment _ _ _ (by
      intro ch hch
      rcases List.mem_cons.mp hch with h | h
      · subst h; constructor <;> decide
      · rcases List.mem_cons.mp h with h2 | h2
        · subst h2; constructor <;> decide
        · simp at h2)
  show ansiEnd (s ++ escChar :: '[' :: '0' :: 'm' :: []) false = false
  rw [ansiEnd_append]
  simpa [ansiEnd] using hsuf

theorem stripAnsi_sprint (c : Color) (s : Str) :
    stripAnsi (sprint c s) = stripAnsi s :=
  stripAnsiGo_sprint c s false

theorem escChar_not_mem_stripAnsiGo (s : Str) (e : Bool) :
    escChar ∉ stripAnsiGo s e := by
  induction s generalizing e with
  | nil => simp [stripAnsiGo]
  | cons r rest ih =>
    by_cases hr : r = escChar
    · simpa [stripAnsiGo, hr] using ih true
    · cases e with
      | true =>
        by_cases hl : isAsciiLetter r
        · simpa [stripAnsiGo, hr, hl] using ih false
        · simpa [stripAnsiGo, hr, hl] using ih true
      | false =>
        have hne : ¬(escChar = r) := fun h => hr h.symm
        simp [stripAnsiGo, hr, hne, ih false]

end AnsiLemmas2

/-- C10: `stripAnsi` is idempotent — its output never contains the escape
code point 0x1B, so a second pass leaves the string unchanged. -/
theorem stripAnsi_idempotent (s : Str) : stripAnsi (stripAnsi s) = stripAnsi s :=
  stripAnsiGo_of_not_mem _ (escChar_not_mem_stripAnsiGo s false)

section WidthLemmas

theorem stripAnsi_append_of_closed (a b : Str) (ha : ansiEnd a false = false) :
    stripAnsi (a ++ b) = stripAnsi a ++ stripAnsi b := by
  unfold stripAnsi
  rw [stripAnsiGo_append, ha]

theorem ansiEnd_append_of_closed (a b : Str) (ha : ansiEnd a false = false) :
    ansiEnd (a ++ b) false = ansiEnd b false := by
  rw [ansiEnd_append, ha]

theorem escChar_not_mem_spaces (n : Nat) : escChar ∉ spaces n := by
  intro h
  have := List.eq_of_mem_replicate h
  exact absurd this (by decide)

theorem repeatChar_single (c : Char) (n : Nat) :
    repeatChar [c] n = List.replicate n c := by
  induction n with
  | zero => rfl
  | succ k ih =>
    simp only [repeatChar, List.replicate_succ, List.flatten_cons] at ih ⊢
    simp [ih]

theorem escChar_not_mem_repeatChar (c : Char) (hc : c ≠ escChar) (n : Nat) :
    escChar ∉ repeatChar [c] n := by
  rw [repeatChar_single]
  intro h
  exact hc (List.eq_of_mem_replicate h).symm

theorem stripAnsi_paint_len (bc : Option Color) (g : Str) (hg : escChar ∉ g) :
    (stripAnsi (paint bc g)).length = g.length ∧ ansiEnd (paint bc g) false = false := by
  cases bc with
  | none =>
    refine ⟨?_, ansiEnd_of_not_mem g hg⟩
    show (stripAnsi g).length = g.length
    rw [show stripAnsi g = g from stripAnsiGo_of_not_mem g hg]
  | some c =>
    refine ⟨?_, ansiEnd_sprint c g false⟩
    rw [show paint (some c) g = sprint c g from rfl, stripAnsi_sprint,
      show stripAnsi g = g from stripAnsiGo_of_not_mem g hg]

theorem stripAnsi_spaces (n : Nat) : stripAnsi (spaces n) = spaces n :=
  stripAnsiGo_of_not_mem _ (escChar_not_mem_spaces n)

theorem ansiEnd_spaces (n : Nat) : ansiEnd (spaces n) false = false :=
  ansiEnd_of_not_mem _ (escChar_not_mem_spaces n)

theorem foldl_max_init_le (l : List Str) :
    ∀ init : Nat, init ≤ l.foldl (fun m line => max m (stripAnsi line).length) init := by
  induction l with
  | nil => intro init; simp
  | cons a rest ih =>
    intro init
    simpa using le_trans (Nat.le_max_left init (stripAnsi a).length) (ih _)

theorem foldl_max_mem_le (l : List Str) (line : Str) (h : line ∈ l) :
    ∀ init : Nat,
      (stripAnsi line).length ≤ l.foldl (fun m li => max m (stripAnsi li).length) init := by
  induction l with
  | nil => cases h
  | cons a rest ih =>
    intro init
    rcases List.mem_cons.mp h with rfl | h2
    · simpa using le_trans (Nat.le_max_right init (stripAnsi line).length)
        (foldl_max_init_le rest _)
    · simpa using ih h2 _

theorem le_maxLineWidth (lines : List Str) (line : Str) (h : line ∈ lines) :
    (stripAnsi line).length ≤ maxLineWidth lines :=
  foldl_max_mem_le lines line h 0

theorem maxLineWidth_le_boxMaxWidth (lines : List Str) (t : Str) (hpad : Nat) :
    maxLineWidth lines + 2 * hpad ≤ boxMaxWidth lines t hpad := by
  unfold boxMaxWidth
  dsimp only
  split_ifs <;> omega

theorem title_le_boxMaxWidth (lines : List Str) (t : Str) (hpad : Nat) :
    (stripAnsi t).length ≤ boxMaxWidth lines t hpad := by
  unfold boxMaxWidth
  dsimp only
  split_ifs with h1 h2
  · omega
  · omega
  · have : t = [] := by tauto
    subst this
    simp [stripAnsi, stripAnsiGo]

end WidthLemmas

/-- C9: for every input, title and paddings, the two interior repetition
counts of `createBox` — the top-border fill `maxWidth - titleWidth` and the
content fill `totalPadding - 2*hpadding` — are non-negative as integers, so
`strings.Repeat` never receives a negative count and `createBox` always
returns a box (no error path). -/
theorem createBox_repeat_counts_nonneg (lines : List Str) (boxTitle : Str)
    (hpadding : Nat) :
    0 ≤ (boxMaxWidth lines boxTitle hpadding : Int) -
        ((stripAnsi boxTitle).length : Int) ∧
    ∀ line ∈ lines,
      0 ≤ (boxMaxWidth lines boxTitle hpadding : Int) -
          ((stripAnsi line).length : Int) - 2 * (hpadding : Int) := by
  constructor
  · have := title_le_boxMaxWidth lines boxTitle hpadding
    omega
  · intro line hl
    have h1 := le_maxLineWidth lines line hl
    have h2 := maxLineWidth_le_boxMaxWidth lines boxTitle hpadding
    omega

/-- Witness for C9 at a concrete input. -/
theorem createBox_repeat_counts_nonneg_witness :
    0 ≤ (boxMaxWidth [['h', 'i']] ['T'] 1 : Int) -
        ((stripAnsi ['h', 'i']).length : Int) - 2 * (1 : Int) :=
  (createBox_repeat_counts_nonneg [['h', 'i']] ['T'] 1).2 ['h', 'i'] (by decide)

section RowLemmas

theorem goodTheme_getTheme (name : Str) : GoodTheme (getTheme name) := by
  unfold getTheme
  split_ifs <;> (unfold GoodTheme GoodGlyph; decide)

theorem goodGlyph_ex (g : Str) (hg : GoodGlyph g) : ∃ c, g = [c] ∧ c ≠ escChar := by
  obtain ⟨hne, hlen⟩ := hg
  match g, hlen with
  | [c], _ =>
    exact ⟨c, rfl, fun h => hne (by simp [h])⟩

theorem strip_len_append (a b : Str) (ha : ansiEnd a false = false) :
    (stripAnsi (a ++ b)).length = (stripAnsi a).length + (stripAnsi b).length := by
  rw [stripAnsi_append_of_closed a b ha, List.length_append]

theorem paint_glyph_len (bc : Option Color) (g : Str) (hg : GoodGlyph g) :
    (stripAnsi (paint bc g)).length = 1 ∧ ansiEnd (paint bc g) false = false := by
  have h := stripAnsi_paint_len bc g hg.1
  rw [hg.2] at h
  exact h

theorem paint_repeat_len (bc : Option Color) (c : Char) (hc : c ≠ escChar) (k : Nat) :
    (stripAnsi (paint bc (repeatChar [c] k))).length = k ∧
    ansiEnd (paint bc (repeatChar [c] k)) false = false := by
  have hnm : escChar ∉ repeatChar [c] k := escChar_not_mem_repeatChar c hc k
  have h := stripAnsi_paint_len bc (repeatChar [c] k) hnm
  refine ⟨?_, h.2⟩
  rw [h.1, repeatChar_single, List.length_replicate]

theorem spaces_len (n : Nat) :
    (stripAnsi (spaces n)).length = n ∧ ansiEnd (spaces n) false = false := by
  refine ⟨?_, ansiEnd_spaces n⟩
  rw [stripAnsi_spaces]
  exact List.length_replicate n ' '

theorem paint_closed_len (cc : Option Color) (line : Str) (hl : AnsiClosed line) :
    (stripAnsi (paint cc line)).length = (stripAnsi line).length ∧
    ansiEnd (paint cc line) false = false := by
  cases cc with
  | some c =>
    refine ⟨?_, ansiEnd_sprint c line false⟩
    show (stripAnsi (sprint c line)).length = (stripAnsi line).length
    rw [stripAnsi_sprint]
  | none => exact ⟨rfl, hl⟩

theorem strip_len_three (p1 p2 p3 : Str)
    (h1 : ansiEnd p1 false = false) (h2 : ansiEnd p2 false = false) :
    (stripAnsi (p1 ++ p2 ++ p3)).length =
      (stripAnsi p1).length + (stripAnsi p2).length + (stripAnsi p3).length := by
  have c12 : ansiEnd (p1 ++ p2) false = false := by
    rw [ansiEnd_append_of_closed _ _ h1]; exact h2
  rw [strip_len_append _ p3 c12, strip_len_append _ p2 h1]

theorem strip_len_six (p1 p2 p3 p4 p5 p6 : Str)
    (h1 : ansiEnd p1 false = false) (h2 : ansiEnd p2 false = false)
    (h3 : ansiEnd p3 false = false) (h4 : ansiEnd p4 false = false)
    (h5 : ansiEnd p5 false = false) :
    (stripAnsi (p1 ++ p2 ++ p3 ++ p4 ++ p5 ++ p6)).length =
      (stripAnsi p1).length + (stripAnsi p2).length + (stripAnsi p3).length +
        (stripAnsi p4).length + (stripAnsi p5).length + (stripAnsi p6).length := by
  have c12 : ansiEnd (p1 ++ p2) false = false := by
    rw [ansiEnd_append_of_closed _ _ h1]; exact h2
  have c123 : ansiEnd (p1 ++ p2 ++ p3) false = false := by
    rw [ansiEnd_append_of_closed _ _ c12]; exact h3
  have c1234 : ansiEnd (p1 ++ p2 ++ p3 ++ p4) false = false := by
    rw [ansiEnd_append_of_closed _ _ c123]; exact h4
  have c12345 : ansiEnd (p1 ++ p2 ++ p3 ++ p4 ++ p5) false = false := by
    rw [ansiEnd_append_of_closed _ _ c1234]; exact h5
  rw [strip_len_append _ p6 c12345, strip_len_append _ p5 c1234,
    strip_len_append _ p4 c123, strip_len_append _ p3 c12, strip_len_append _ p2 h1]

end RowLemmas

/-- C6 (amended): for every call of `createBox` through one of the program's
glyph sets, provided every content line and the title contain no
unterminated ANSI escape (`AnsiClosed`), every line of the returned box has
the same ANSI-stripped display width, namely the computed inner width
`boxMaxWidth` plus the 2 border glyphs; the original claim, quantified over
all inputs, fails on lines with a dangling escape byte (see the
counterexample). -/
theorem createBox_uniform_width (lines : List Str)
    (boxColor contentColor titleColor : Option Color) (boxTitle : Str)
    (tname : Str) (vpadding hpadding : Nat)
    (hlines : ∀ l ∈ lines, AnsiClosed l) (htitle : AnsiClosed boxTitle) :
    ∀ out ∈ createBox lines boxColor contentColor boxTitle titleColor
        (getTheme tname) vpadding hpadding,
      (stripAnsi out).length = boxMaxWidth lines boxTitle hpadding + 2 := by
  intro out hout
  obtain ⟨hwe, hns, hnw, hne, hsw, hse⟩ := goodTheme_getTheme tname
  obtain ⟨cw, hcw, hcwne⟩ := goodGlyph_ex _ hwe
  simp only [createBox] at hout
  have hnw' := paint_glyph_len boxColor _ hnw
  have hne' := paint_glyph_len boxColor _ hne
  have hns' := paint_glyph_len boxColor _ hns
  have hsw' := paint_glyph_len boxColor _ hsw
  have hse' := paint_glyph_len boxColor _ hse
  have hmwt := title_le_boxMaxWidth lines boxTitle hpadding
  have hmwl := maxLineWidth_le_boxMaxWidth lines boxTitle hpadding
  rcases List.mem_append.mp hout with h3 | hbot
  · rcases List.mem_append.mp h3 with h2 | hpad2
    · rcases List.mem_append.mp h2 with h1 | hmap
      · rcases List.mem_append.mp h1 with htop | hpad1
        · -- top border row
          rw [List.mem_singleton.mp htop, hcw]
          by_cases ht : boxTitle ≠ []
          · rw [if_pos ht]
            have hT1 := paint_closed_len titleColor boxTitle htitle
            have hT2 := paint_repeat_len boxColor cw hcwne
              (boxMaxWidth lines boxTitle hpadding - (stripAnsi boxTitle).length)
            have hIF : ansiEnd (paint titleColor boxTitle ++
                paint boxColor (repeatChar [cw]
                  (boxMaxWidth lines boxTitle hpadding - (stripAnsi boxTitle).length)))
                false = false := by
              rw [ansiEnd_append_of_closed _ _ hT1.2]; exact hT2.2
            rw [strip_len_three _ _ _ hnw'.2 hIF, strip_len_append _ _ hT1.2,
              hnw'.1, hne'.1, hT1.1, hT2.1]
            omega
          · rw [if_neg ht]
            have hT2 := paint_repeat_len boxColor cw hcwne
              (boxMaxWidth lines boxTitle hpadding)
            rw [strip_len_three _ _ _ hnw'.2 hT2.2, hnw'.1, hne'.1, hT2.1]
            omega
        · -- top padding row
          rw [(List.mem_replicate.mp hpad1).2]
          have hsp := spaces_len (boxMaxWidth lines boxTitle hpadding)
          rw [strip_len_three _ _ _ hns'.2 hsp.2, hns'.1, hsp.1]
          omega
      · -- content row
        obtain ⟨line, hline, rfl⟩ := List.mem_map.mp hmap
        have hw := le_maxLineWidth lines line hline
        have hC := paint_closed_len contentColor line (hlines line hline)
        have hs1 := spaces_len hpadding
        have hs2 := spaces_len
          (boxMaxWidth lines boxTitle hpadding - (stripAnsi line).length - 2 * hpadding)
        rw [strip_len_six _ _ _ _ _ _ hns'.2 hs1.2 hC.2 hs1.2 hs2.2,
          hns'.1, hs1.1, hC.1, hs2.1]
        omega
    · -- bottom padding row
      rw [(List.mem_replicate.mp hpad2).2]
      have hsp := spaces_len (boxMaxWidth lines boxTitle hpadding)
      rw [strip_len_three _ _ _ hns'.2 hsp.2, hns'.1, hsp.1]
      omega
  · -- bottom border row
    rw [List.mem_singleton.mp hbot, hcw]
    have hT2 := paint_repeat_len boxColor cw hcwne (boxMaxWidth lines boxTitle hpadding)
    rw [strip_len_three _ _ _ hsw'.2 hT2.2, hsw'.1, hse'.1, hT2.1]
    omega

/-- Counterexample to C6 as stated: a line consisting of the bare escape
byte 0x1B swallows the closing border glyph during stripping, so the content
row of its box is narrower than the borders. -/
theorem createBox_uniform_width_counterexample :
    ¬ (∀ out ∈ createBox [[escChar]] none none [] none
          (getTheme ("unicode").toList) 0 0,
        (stripAnsi out).length = boxMaxWidth [[escChar]] [] 0 + 2) := by
  intro h
  have := h ((createBox [[escChar]] none none [] none
    (getTheme ("unicode").toList) 0 0).getD 1 []) (by decide)
  revert this
  decide

/-- Witness for C6 at a concrete input. -/
theorem createBox_uniform_width_witness :
    (stripAnsi ((createBox [['h', 'i']] none none ['T'] none
        (getTheme ("unicode").toList) 1 1).getD 0 [])).length =
      boxMaxWidth [['h', 'i']] ['T'] 1 + 2 :=
  createBox_uniform_width [['h', 'i']] none none none ['T']
    ("unicode").toList 1 1 (by decide) (by decide) _ (by decide)

section LengthLemmas

theorem createBox_length (lines : List Str) (bc cc : Option Color) (t : Str)
    (tc : Option Color) (th : Theme) (vp hp : Nat) :
    (createBox lines bc cc t tc th vp hp).length = lines.length + 2 * (1 + vp) := by
  simp only [createBox, List.length_append, List.length_replicate, List.length_map,
    List.length_singleton]
  omega

theorem foldl_box_length (K : Nat) (f : List Str → Nat → List Str)
    (hf : ∀ ls i, (f ls i).length = ls.length + K) :
    ∀ (r : List Nat) (ls : List Str), (r.foldl f ls).length = ls.length + r.length * K := by
  intro r
  induction r with
  | nil => intro ls; simp
  | cons a rest ih =>
    intro ls
    simp only [List.foldl_cons, List.length_cons]
    rw [ih (f ls a), hf ls a]
    ring

end LengthLemmas

/-- C7: for every input line list of length n, depth d > 0 and vpad >= 0 (and
all other parameters), `createNestedBoxes` returns n + 2*d*(1+vpad) lines:
each layer adds a top border, a bottom border, and vpad padding rows above
and below. -/
theorem createNestedBoxes_line_count (lines : List Str) (depth : Nat)
    (boxColors titleColors boxTitles : List Str) (theme : Theme)
    (vpadding hpadding : Nat) (contentColor : Option Color)
    (colorTheme : Option ColorThemeGo) (rnd : Nat → Nat) (hd : 0 < depth) :
    (createNestedBoxes lines depth boxColors titleColors boxTitles theme
        vpadding hpadding contentColor colorTheme rnd).length =
      lines.length + 2 * depth * (1 + vpadding) := by
  unfold createNestedBoxes
  have hf : ∀ ls i, (nestStep boxColors titleColors boxTitles theme vpadding
      hpadding contentColor colorTheme rnd depth ls i).length =
      ls.length + 2 * (1 + vpadding) := by
    intro ls i
    unfold nestStep
    exact createBox_length ls _ _ _ _ _ _ _
  rw [foldl_box_length (2 * (1 + vpadding)) _ hf]
  simp [List.length_range]
  ring

/-- Witness for C7 at a concrete input. -/
theorem createNestedBoxes_line_count_witness :
    (createNestedBoxes [['x']] 2 [] [] [] themeAscii 3 0 none none
        (fun _ => 0)).length = 1 + 2 * 2 * (1 + 3) :=
  createNestedBoxes_line_count [['x']] 2 [] [] [] themeAscii 3 0 none none
    (fun _ => 0) (by decide)

section TrimLemmas
theorem dropWhile_sp_replicate (n : Nat) (l : Str) :
    (List.replicate n ' ' ++ l).dropWhile (fun c => c = ' ') =
      l.dropWhile (fun c => c = ' ') := by
  induction n with
  | zero => simp
  | succ k ih => simpa [List.replicate_succ, List.dropWhile] using ih

theorem dropWhile_sp_of_head (l : Str) (h : l.head? ≠ some ' ') :
    l.dropWhile (fun c => c = ' ') = l := by
  cases l with
  | nil => rfl
  | cons c t =>
    have : ¬(c = ' ') := by
      intro hc
      exact h (by simp [hc])
    simp [List.dropWhile, this]

theorem trimSpaces_all_spaces (n : Nat) :
    trimSpaces (List.replicate n ' ') = [] := by
  unfold trimSpaces
  rw [show List.replicate n ' ' = List.replicate n ' ' ++ ([] : Str) by simp,
    dropWhile_sp_replicate]
  simp

theorem trimSpaces_row (line : Str) (k : Nat) (h1 : line.head? ≠ some ' ')
    (h2 : line.getLast? ≠ some ' ') :
    trimSpaces (' ' :: (line ++ (List.replicate k ' ' ++ [' ']))) = line := by
  cases line with
  | nil =>
    simp only [List.nil_append]
    have : (' ' :: (List.replicate k ' ' ++ [' '])) = List.replicate (k + 2) ' ' := by
      rw [List.replicate_succ, List.replicate_succ']
    rw [this, trimSpaces_all_spaces]
  | cons c t =>
    unfold trimSpaces
    have hc : ¬(c = ' ') := by
      intro hc
      exact h1 (by simp [hc])
    have hstep1 : (' ' :: (c :: t ++ (List.replicate k ' ' ++ [' ']))).dropWhile
        (fun x => x = ' ') = c :: t ++ (List.replicate k ' ' ++ [' ']) := by
      simp [List.dropWhile, hc]
    rw [hstep1]
    have hrev : (c :: t ++ (List.replicate k ' ' ++ [' '])).reverse =
        List.replicate (k + 1) ' ' ++ (c :: t).reverse := by
      simp [List.reverse_append, List.reverse_replicate, List.replicate_succ]
    rw [hrev, dropWhile_sp_replicate]
    have hlast : ((c :: t).reverse).head? ≠ some ' ' := by
      rw [List.head?_reverse]
      exact h2
    rw [dropWhile_sp_of_head _ hlast]
    simp

end TrimLemmas

/-- C8 (amended): for every input line list in which no line starts or ends
with a space, rendering a depth-1 box with the plain theme, vpad=0, hpad=0,
no title and no colors, then dropping the top/bottom border rows and
trimming the border and fill spaces from each content row reconstructs the
original input lines; the original claim, quantified over every input line
list, fails on lines with leading or trailing spaces, which trimming cannot
distinguish from the added fill (see the counterexample). -/
theorem createBox_plain_roundtrip (lines : List Str)
    (h : ∀ l ∈ lines, l.head? ≠ some ' ' ∧ l.getLast? ≠ some ' ') :
    recoverPlain (createBox lines none none [] none themePlain 0 0) = lines := by
  unfold recoverPlain
  simp only [createBox, themePlain, paint, spaces, List.replicate,
    ne_eq, not_true_eq_false, if_false, List.nil_append, List.append_nil]
  have htail : ∀ (a : Str) (l : List Str), (a :: l).tail = l := fun _ _ => rfl
  rw [List.singleton_append, List.cons_append, List.drop_one, htail,
    List.dropLast_concat, List.map_map]
  refine (List.map_congr_left ?_).trans (List.map_id lines)
  intro l hl
  obtain ⟨h1, h2⟩ := h l hl
  simp only [Function.comp_apply, id_eq, List.append_assoc, List.singleton_append]
  exact trimSpaces_row l _ h1 h2

/-- Counterexample to C8 as stated: a line with a trailing space is not
reconstructed, because the trailing space is trimmed away together with the
fill spaces. -/
theorem createBox_plain_roundtrip_counterexample :
    recoverPlain (createBox [['a', ' ']] none none [] none themePlain 0 0) ≠
      [['a', ' ']] := by decide

/-- Witness for C8 at a concrete input. -/
theorem createBox_plain_roundtrip_witness :
    recoverPlain (createBox [['h', 'i'], []] none none [] none themePlain 0 0) =
      [['h', 'i'], []] :=
  createBox_plain_roundtrip [['h', 'i'], []] (by decide)

/-- Counterexample to C3 as stated: with a one-element titles list, layer 1
resolves to the empty title, not to the list's first element as the claim's
fallback rule predicts. -/
theorem resolveTitle_first_fallback_refuted :
    resolveTitle [['T']] 1 ≠ (specResolve [['T']] 1).getD [] := by decide

/-- C3 (amended): with no color theme active, border colors and title colors
follow the claim's fallback rule (element at `i` when in range, else the
first element when the list is non-empty, else unset), but the title is the
element at `i` when in range and the EMPTY string otherwise — a non-empty
titles list shorter than the depth does not supply its first element past
its end. -/
theorem resolve_attributes_amended :
    (∀ (colors : List Str) (i : Nat),
      resolveColor colors i = (specResolve colors i).map parseColor) ∧
    (∀ (titles : List Str) (i : Nat),
      resolveTitle titles i = if i < titles.length then titles.getD i [] else []) := by
  constructor
  · intro colors i
    cases colors with
    | nil => simp [resolveColor, specResolve]
    | cons c0 rest =>
      by_cases hi : i < (c0 :: rest).length
      · have hlen : i < rest.length + 1 := by simpa using hi
        have hsome : (c0 :: rest)[i]? = some ((c0 :: rest).get ⟨i, hi⟩) :=
          List.getElem?_eq_getElem hi
        simp [resolveColor, specResolve, hlen, hsome]
      · have hlen : ¬(i < rest.length + 1) := by simpa using hi
        simp [resolveColor, specResolve, hlen]
  · intro titles i
    cases titles with
    | nil => simp [resolveTitle]
    | cons t0 rest => simp [resolveTitle]

/-- C1 is refuted by this evaluation (code bug): with the rainbow theme,
depth 2 and input `["x"]`, iteration `i = 0` of `createNestedBoxes` wraps the
raw content first, so the color obtained for index 0 (code 0) lands on the
INNERMOST border, and the first line of the final output — the outermost top
border — is colored with index `depth-1 = 1` (code 1), contradicting the
claim (and the comment in the source) that index 0 supplies the outermost
border. -/
theorem createNestedBoxes_rainbow_depth2_colors :
    (createNestedBoxes [['x']] 2 [] [] [] themeAscii 0 0 none
        (some ⟨"rainbow".toList, 0⟩) (fun _ => 0)).head? =
      some (sprint [38, 5, 1] ['+'] ++ sprint [38, 5, 1] ['-', '-', '-'] ++
        sprint [38, 5, 1] ['+']) ∧
    (createNestedBoxes [['x']] 2 [] [] [] themeAscii 0 0 none
        (some ⟨"rainbow".toList, 0⟩) (fun _ => 0)).getD 1 [] =
      sprint [38, 5, 1] ['|'] ++
        (sprint [38, 5, 0] ['+'] ++ sprint [38, 5, 0] ['-'] ++ sprint [38, 5, 0] ['+']) ++
        sprint [38, 5, 1] ['|'] := by
  constructor <;> decide

/-- C2 is refuted by this evaluation (code bug): with depth 2, content color
red (attribute 31) and input `["x"]`, the full output shows that the
innermost box leaves the raw line `x` uncolored, while the outermost
`createBox` call (iteration `i = depth-1`) wraps every line of the inner
rendered box — inner borders included — in the content color, contradicting
the claim (and the comment in the source) that only the innermost layer's
raw content is colored. -/
theorem createNestedBoxes_depth2_content :
    createNestedBoxes [['x']] 2 [] [] [] themeAscii 0 0 (some [31]) none
        (fun _ => 0) =
      [['+', '-', '-', '-', '+'],
        '|' :: (sprint [31] ['+', '-', '+'] ++ ['|']),
        '|' :: (sprint [31] ['|', 'x', '|'] ++ ['|']),
        '|' :: (sprint [31] ['+', '-', '+'] ++ ['|']),
        ['+', '-', '-', '-', '+']] := by decide

namespace Part001

theorem getD_mem_of_lt (l : List Nat) (i d : Nat) (h : i < l.length) :
    l.getD i d ∈ l := by
  rw [List.getD_eq_getElem l d h]
  exact List.getElem_mem h

theorem flagLoop_some_mem (cand used : List Nat) (ci : Nat) (hc : cand ≠ []) :
    ∀ (k i : Nat) (c idx2 : Nat) (used2 : List Nat),
      flagLoop cand used ci i k = some (c, idx2, used2) → c ∈ cand := by
  intro k
  induction k with
  | zero => intro i c idx2 used2 hl; simp [flagLoop] at hl
  | succ j ih =>
    intro i c idx2 used2 hl
    simp only [flagLoop] at hl
    by_cases hmem : cand.getD ((ci + i) % cand.length) 0 ∈ used
    · rw [if_pos hmem] at hl
      exact ih (i + 1) c idx2 used2 hl
    · rw [if_neg hmem] at hl
      have hcand : (ci + i) % cand.length < cand.length :=
        Nat.mod_lt _ (List.length_pos.mpr hc)
      have : cand.getD ((ci + i) % cand.length) 0 = c := by
        injection hl with h1
        exact congrArg Prod.fst h1
      rw [← this]
      exact getD_mem_of_lt cand _ 0 hcand

theorem flagStep_fst_mem (cand : List Nat) (theme : ColorTheme) (hc : cand ≠ []) :
    (flagStep cand theme).1 ∈ cand := by
  unfold flagStep
  cases hl : flagLoop cand
      (if cand.length ≤ theme.usedColors.length then [] else theme.usedColors)
      theme.colorIndex 0 cand.length with
  | some trip =>
    obtain ⟨c, idx2, used2⟩ := trip
    simp only [hl]
    exact flagLoop_some_mem cand _ theme.colorIndex hc cand.length 0 c idx2 used2 hl
  | none =>
    simp only [hl]
    exact getD_mem_of_lt cand 0 0 (List.length_pos.mpr hc)

theorem flagStep_name (cand : List Nat) (theme : ColorTheme) :
    (flagStep cand theme).2.name = theme.name := by
  unfold flagStep
  cases hl : flagLoop cand
      (if cand.length ≤ theme.usedColors.length then [] else theme.usedColors)
      theme.colorIndex 0 cand.length with
  | some trip =>
    obtain ⟨c, idx2, used2⟩ := trip
    simp [hl]
  | none => simp [hl]

theorem getNextColor_trans_eq (src : Nat → Nat) (fuel pos : Nat)
    (theme : ColorTheme) (h : theme.name = "trans".toList) :
    getNextColor src fuel pos theme =
      some ((flagStep transColors theme).1, pos, (flagStep transColors theme).2) := by
  unfold getNextColor
  rw [h, if_neg (by decide), if_neg (by decide), if_neg (by decide)]
  have hf : flagCandidates ("trans".toList) = some transColors := by decide
  rw [hf]

theorem runNextColors_trans_subset (src : Nat → Nat) (fuel : Nat) :
    ∀ (n pos : Nat) (theme : ColorTheme), theme.name = "trans".toList →
      ∀ (cs : List Nat) (pos2 : Nat) (th2 : ColorTheme),
        runNextColors src fuel n pos theme = some (cs, pos2, th2) →
        cs ⊆ transColors := by
  intro n
  induction n with
  | zero =>
    intro pos theme h cs pos2 th2 hrun
    simp only [runNextColors, Option.some.injEq, Prod.mk.injEq] at hrun
    rw [← hrun.1]
    exact List.nil_subset _
  | succ k ih =>
    intro pos theme h cs pos2 th2 hrun
    simp only [runNextColors, getNextColor_trans_eq src fuel pos theme h] at hrun
    cases hr : runNextColors src fuel k pos (flagStep transColors theme).2 with
    | none => simp [hr] at hrun
    | some trip2 =>
      obtain ⟨cs', pos3, th3⟩ := trip2
      simp only [hr, Option.some.injEq, Prod.mk.injEq] at hrun
      obtain ⟨hcs, hp3, ht3⟩ := hrun
      rw [← hcs]
      refine List.cons_subset.mpr ⟨flagStep_fst_mem transColors theme (by decide), ?_⟩
      refine ih pos (flagStep transColors theme).2 ?_ cs' pos3 th3 hr
      rw [flagStep_name, h]

end Part001

/-- C4: in the stateful color engine, the trans palette is the fixed literal
list `[51, 213, 15]` of exactly 3 distinct color indices, and over any number
of consecutive `getNextColor` calls with theme name `trans` every returned
index is one of those 3 values. -/
theorem trans_palette_three (src : Nat → Nat) (fuel n pos : Nat)
    (theme : Part001.ColorTheme) (hname : theme.name = "trans".toList)
    (cs : List Nat) (pos2 : Nat) (th2 : Part001.ColorTheme)
    (hrun : Part001.runNextColors src fuel n pos theme = some (cs, pos2, th2)) :
    Part001.transColors.length = 3 ∧ Part001.transColors.Nodup ∧
      cs ⊆ Part001.transColors :=
  ⟨by decide, by decide,
    Part001.runNextColors_trans_subset src fuel n pos theme hname cs pos2 th2 hrun⟩

/-- Witness for C4: four consecutive trans-theme calls from a fresh state
return 51, 213, 15, 51, all inside the 3-element palette. -/
theorem trans_palette_three_witness :
    [51, 213, 15, 51] ⊆ Part001.transColors :=
  (trans_palette_three (fun i => i) 1 4 0
    (Part001.newColorTheme ("trans".toList) 0) rfl [51, 213, 15, 51] 0
    ⟨"trans".toList, 0, [51], 1⟩ (by decide)).2.2

namespace Part001

theorem drawLoop_some (src : Nat → Nat) :
    ∀ (fuel pos : Nat) (used : List Nat) (c pos2 : Nat),
      drawLoop src pos used fuel = some (c, pos2) → c ∉ used ∧ c < 216 := by
  intro fuel
  induction fuel with
  | zero => intro pos used c pos2 hd; simp [drawLoop] at hd
  | succ f ih =>
    intro pos used c pos2 hd
    simp only [drawLoop] at hd
    by_cases hmem : src pos % 216 ∈ used
    · rw [if_pos hmem] at hd
      exact ih (pos + 1) used c pos2 hd
    · rw [if_neg hmem] at hd
      simp only [Option.some.injEq, Prod.mk.injEq] at hd
      obtain ⟨hc, hp⟩ := hd
      subst hc
      exact ⟨hmem, Nat.mod_lt _ (by omega)⟩

theorem getNextColor_random_eq (src : Nat → Nat) (fuel pos : Nat)
    (theme : ColorTheme) (h : theme.name = "random".toList) :
    getNextColor src fuel pos theme =
      (match drawLoop src pos
          (if 216 ≤ theme.usedColors.length then [] else theme.usedColors) fuel with
        | none => none
        | some (c, pos2) => some (c, pos2, { theme with usedColors :=
            c :: (if 216 ≤ theme.usedColors.length then [] else theme.usedColors) })) := by
  unfold getNextColor
  rw [h, if_pos rfl]

theorem runNextColors_random_inv (src : Nat → Nat) (fuel : Nat) :
    ∀ (n pos : Nat) (theme : ColorTheme), theme.name = "random".toList →
      theme.usedColors.Nodup → theme.usedColors.length + n ≤ 216 →
      ∀ (cs : List Nat) (pos2 : Nat) (th2 : ColorTheme),
        runNextColors src fuel n pos theme = some (cs, pos2, th2) →
        cs.length = n ∧ (∀ c ∈ cs, c < 216) ∧
          (cs.reverse ++ theme.usedColors).Nodup ∧
          th2.usedColors = cs.reverse ++ theme.usedColors := by
  intro n
  induction n with
  | zero =>
    intro pos theme h hnd hlen cs pos2 th2 hrun
    simp only [runNextColors, Option.some.injEq, Prod.mk.injEq] at hrun
    obtain ⟨hcs, hp, ht⟩ := hrun
    subst hcs
    subst ht
    simpa using hnd
  | succ k ih =>
    intro pos theme h hnd hlen cs pos2 th2 hrun
    have hused : (if 216 ≤ theme.usedColors.length then [] else theme.usedColors) =
        theme.usedColors := if_neg (by omega)
    simp only [runNextColors, getNextColor_random_eq src fuel pos theme h, hused] at hrun
    cases hd : drawLoop src pos theme.usedColors fuel with
    | none => simp [hd] at hrun
    | some cp =>
      obtain ⟨c, p2⟩ := cp
      simp only [hd] at hrun
      obtain ⟨hcnot, hc216⟩ := drawLoop_some src fuel pos theme.usedColors c p2 hd
      cases hr : runNextColors src fuel k p2
          { theme with usedColors := c :: theme.usedColors } with
      | none => simp [hr] at hrun
      | some trip2 =>
        obtain ⟨cs', pos3, th3⟩ := trip2
        simp only [hr, Option.some.injEq, Prod.mk.injEq] at hrun
        obtain ⟨hcs, hp3, ht3⟩ := hrun
        have ihres := ih p2 { theme with usedColors := c :: theme.usedColors }
          (by simpa using h)
          (by simpa [List.nodup_cons] using ⟨hcnot, hnd⟩)
          (by simp only [List.length_cons]; omega)
          cs' pos3 th3 hr
        obtain ⟨ihlen, ihall, ihnd, ihused⟩ := ihres
        subst hcs
        refine ⟨by simp [ihlen], ?_, ?_, ?_⟩
        · intro c' hc'
          rcases List.mem_cons.mp hc' with rfl | hc2
          · exact hc216
          · exact ihall c' hc2
        · rw [List.reverse_cons, List.append_assoc, List.singleton_append]
          simpa using ihnd
        · subst ht3
          rw [ihused, List.reverse_cons, List.append_assoc, List.singleton_append]

end Part001

/-- C5: 216 consecutive `getNextColor` calls of the `random` theme within one
invocation (fresh state from `newColorTheme`), for every behavior of the
pseudo-random source `src` and any fuel for which all calls succeed, return
pairwise distinct indices: every value in [0,216) appears exactly once —
colliding draws are redrawn and the tracking set is never cleared before the
216 indices are exhausted. -/
theorem random_216_distinct (src : Nat → Nat) (fuel : Nat) (r : Nat)
    (cs : List Nat) (pos2 : Nat) (th2 : Part001.ColorTheme)
    (hrun : Part001.runNextColors src fuel 216 0
        (Part001.newColorTheme ("random".toList) r) = some (cs, pos2, th2)) :
    cs.Nodup ∧ cs.length = 216 ∧ ∀ v, v < 216 → cs.count v = 1 := by
  obtain ⟨hlen, hall, hnd, hused⟩ :=
    Part001.runNextColors_random_inv src fuel 216 0
      (Part001.newColorTheme ("random".toList) r) rfl (by constructor)
      (by simp [Part001.newColorTheme]) cs pos2 th2 hrun
  have hnodup : cs.Nodup := by
    rw [← List.nodup_reverse]
    simpa [Part001.newColorTheme] using hnd
  refine ⟨hnodup, hlen, ?_⟩
  intro v hv
  have hsub : cs.toFinset ⊆ Finset.range 216 := by
    intro x hx
    exact Finset.mem_range.mpr (hall x (List.mem_toFinset.mp hx))
  have hcard : cs.toFinset.card = 216 := by
    rw [List.toFinset_card_of_nodup hnodup, hlen]
  have heq : cs.toFinset = Finset.range 216 :=
    Finset.eq_of_subset_of_card_le hsub (by rw [hcard, Finset.card_range])
  have hvmem : v ∈ cs := by
    have : v ∈ cs.toFinset := by
      rw [heq]
      exact Finset.mem_range.mpr hv
    exact List.mem_toFinset.mp this
  exact List.count_eq_one_of_mem hnodup hvmem

set_option maxRecDepth 10000 in
/-- Witness for C5: with the identity stream every draw is fresh, the 216
calls succeed with fuel 1 and return 0..215 in order. -/
theorem random_216_distinct_witness : (List.range 216).Nodup :=
  (random_216_distinct (fun i => i) 1 0 (List.range 216) 216
    ⟨"random".toList, 0, (List.range 216).reverse, 0⟩ (by decide)).1
